import Mathlib

/-!
Verification of the info-getter discovery-and-extraction engine.

The JavaScript sources (src/extractor.js, src/scraper.js) are shallowly
embedded below.  Text is modelled as `List Char`; the JS regular
expressions used by the extractor (three phone patterns and one e-mail
pattern) are sequences of character-class atoms with greedy bounded or
unbounded repetition, so they are embedded as `List RAtom` executed by a
backtracking matcher (`matchAtoms`) with the exact greedy, leftmost-first
semantics of the JS engine on such patterns.  Stateful code (the dedup
set, the worker pool, the scroll loop) is modelled by explicit state
passing; fallible steps (page navigation, DOM reads) are `Except`-valued
inputs.
-/

namespace InfoGetter

/-- A regex atom: a character class repeated between `lo` and `hi` times
(`hi = none` means unbounded, as in `+` or `*`). -/
structure RAtom where
  cls : Char → Bool
  lo : Nat
  hi : Option Nat

/-- Length of the longest prefix of `s` consisting of characters in `cls`. -/
def runLen (cls : Char → Bool) : List Char → Nat
  | [] => 0
  | c :: cs => if cls c then runLen cls cs + 1 else 0

/-- Greedy backtracking over the repetition count of one atom: try to
consume `k` characters, then `k-1`, ... (`fuel` bounds the number of
candidate counts).  `next` matches the remaining atoms. -/
def tryCounts (next : List Char → Option Nat) (s : List Char) : Nat → Nat → Option Nat
  | _, 0 => none
  | k, fuel + 1 =>
    match next (List.drop k s) with
    | some m => some (k + m)
    | none => tryCounts next s (k - 1) fuel

/-- Match a sequence of atoms at the start of `s`, returning the number of
characters consumed by the (greedy-preferred) match, like the JS engine
anchored at one position. -/
def matchAtoms : List RAtom → List Char → Option Nat
  | [], _ => some 0
  | a :: rest, s =>
    let r := runLen a.cls s
    let hi := match a.hi with
      | none => r
      | some m => min r m
    if a.lo ≤ hi then tryCounts (matchAtoms rest) s hi (hi + 1 - a.lo) else none

/-- Leftmost match of a pattern in `s` (what `text.match(p)[0]` returns). -/
def firstMatch (p : List RAtom) : List Char → Option (List Char)
  | [] =>
    match matchAtoms p [] with
    | some _ => some []
    | none => none
  | c :: rest =>
    match matchAtoms p (c :: rest) with
    | some n => some (List.take n (c :: rest))
    | none => firstMatch p rest

/-- All matches of a global pattern, left to right and non-overlapping
(what `text.match(/p/g)` returns); `fuel` bounds the scan. -/
def allMatchesGo (p : List RAtom) : Nat → List Char → List (List Char)
  | 0, _ => []
  | fuel + 1, s =>
    match matchAtoms p s with
    | some n => List.take n s :: allMatchesGo p fuel (List.drop (max n 1) s)
    | none =>
      match s with
      | [] => []
      | _ :: rest => allMatchesGo p fuel rest

/-- All matches of a global pattern in `s`. -/
def allMatches (p : List RAtom) (s : List Char) : List (List Char) :=
  allMatchesGo p (s.length + 1) s

/-! ### Character classes of the extractor's patterns (src/extractor.js) -/

/-- The JS `\s` class (whitespace). -/
def isWsChar (c : Char) : Bool :=
  c = ' ' || c = '\t' || c = '\n' || c = '\r' ||
  c.val = 11 || c.val = 12 || c.val = 0xa0 || c.val = 0x1680 ||
  (0x2000 ≤ c.val && c.val ≤ 0x200a) || c.val = 0x2028 || c.val = 0x2029 ||
  c.val = 0x202f || c.val = 0x205f || c.val = 0x3000 || c.val = 0xfeff

/-- The class `[-.\s]` used as a phone-number separator. -/
def isSepChar (c : Char) : Bool :=
  c = '-' || c = '.' || isWsChar c

/-- The class `[a-zA-Z]`. -/
def isAsciiAlpha (c : Char) : Bool :=
  ('a' ≤ c && c ≤ 'z') || ('A' ≤ c && c ≤ 'Z')

/-- The class `[a-zA-Z0-9._%+-]` (e-mail local part). -/
def isEmailLocalChar (c : Char) : Bool :=
  isAsciiAlpha c || c.isDigit || c = '.' || c = '_' || c = '%' || c = '+' || c = '-'

/-- The class `[a-zA-Z0-9.-]` (e-mail domain part). -/
def isEmailDomainChar (c : Char) : Bool :=
  isAsciiAlpha c || c.isDigit || c = '.' || c = '-'

/-! ### The extractor's patterns (src/extractor.js lines 31-38) -/

/-- First phone pattern:
`/\+?\d{1,4}[-.\s]?\(?\d{1,4}\)?[-.\s]?\d{1,4}[-.\s]?\d{1,9}/g`. -/
def PHONE_PATTERN_1 : List RAtom :=
  [⟨(· = '+'), 0, some 1⟩, ⟨Char.isDigit, 1, some 4⟩, ⟨isSepChar, 0, some 1⟩,
   ⟨(· = '('), 0, some 1⟩, ⟨Char.isDigit, 1, some 4⟩, ⟨(· = ')'), 0, some 1⟩,
   ⟨isSepChar, 0, some 1⟩, ⟨Char.isDigit, 1, some 4⟩, ⟨isSepChar, 0, some 1⟩,
   ⟨Char.isDigit, 1, some 9⟩]

/-- Second phone pattern: `/\(\d{3}\)\s*\d{3}[-.\s]?\d{4}/g`. -/
def PHONE_PATTERN_2 : List RAtom :=
  [⟨(· = '('), 1, some 1⟩, ⟨Char.isDigit, 3, some 3⟩, ⟨(· = ')'), 1, some 1⟩,
   ⟨isWsChar, 0, none⟩, ⟨Char.isDigit, 3, some 3⟩, ⟨isSepChar, 0, some 1⟩,
   ⟨Char.isDigit, 4, some 4⟩]

/-- Third phone pattern: `/\d{3}[-.\s]\d{3}[-.\s]\d{4}/g`. -/
def PHONE_PATTERN_3 : List RAtom :=
  [⟨Char.isDigit, 3, some 3⟩, ⟨isSepChar, 1, some 1⟩, ⟨Char.isDigit, 3, some 3⟩,
   ⟨isSepChar, 1, some 1⟩, ⟨Char.isDigit, 4, some 4⟩]

/-- The list `PHONE_PATTERNS`, in the order the code tries them. -/
def PHONE_PATTERNS : List (List RAtom) :=
  [PHONE_PATTERN_1, PHONE_PATTERN_2, PHONE_PATTERN_3]

/-- The pattern `EMAIL_PATTERN`: `/[a-zA-Z0-9._%+-]+@[a-zA-Z0-9.-]+\.[a-zA-Z]{2,}/g`. -/
def EMAIL_PATTERN : List RAtom :=
  [⟨isEmailLocalChar, 1, none⟩, ⟨(· = '@'), 1, some 1⟩,
   ⟨isEmailDomainChar, 1, none⟩, ⟨(· = '.'), 1, some 1⟩, ⟨isAsciiAlpha, 2, none⟩]

/-! ### Pure text helpers -/

/-- JS `String.prototype.trim`: strip whitespace from both ends. -/
def jsTrim (s : List Char) : List Char :=
  ((s.dropWhile isWsChar).reverse.dropWhile isWsChar).reverse

/-- Lower-case a character list (JS `toLowerCase` restricted to ASCII,
which is all the extractor ever compares). -/
def lowerChars (s : List Char) : List Char :=
  s.map Char.toLower

/-- Substring test: JS `String.prototype.includes`. -/
def containsSub (needle : List Char) : List Char → Bool
  | [] => needle.isEmpty
  | c :: rest => needle.isPrefixOf (c :: rest) || containsSub needle rest

/-! ### `extractPhone` (src/extractor.js lines 45-61) -/

/-- The loop over `PHONE_PATTERNS`: for each pattern in order, look at the
first match only; return it (trimmed) if it has at least 7 digits after
stripping non-digits, else fall through to the next pattern. -/
def tryPhonePatterns : List (List RAtom) → List Char → Option (List Char)
  | [], _ => none
  | p :: ps, s =>
    match firstMatch p s with
    | some m =>
      let phone := jsTrim m
      if 7 ≤ (phone.filter Char.isDigit).length then some phone
      else tryPhonePatterns ps s
    | none => tryPhonePatterns ps s

/-- The function `extractPhone(text)`. -/
def extractPhone (s : List Char) : Option (List Char) :=
  if s.isEmpty then none else tryPhonePatterns PHONE_PATTERNS s

/-! ### `extractEmails` (src/extractor.js lines 68-87) -/

/-- The fixed platform-noise blocklist checked by `extractEmails`. -/
def EMAIL_BLOCKLIST : List (List Char) :=
  ["example.com".toList, "google.com".toList, "gstatic.com".toList,
   "googleapis.com".toList]

/-- The filter of `extractEmails`: keep a match unless its lower-cased
text CONTAINS one of the blocklisted strings (`lower.includes(...)`). -/
def emailAllowed (e : List Char) : Bool :=
  EMAIL_BLOCKLIST.all fun b => !containsSub b (lowerChars e)

/-- First-seen-order de-duplication (`[...new Set(xs)]`). -/
def dedupFS (seen : List (List Char)) : List (List Char) → List (List Char)
  | [] => []
  | x :: xs => if x ∈ seen then dedupFS seen xs else x :: dedupFS (x :: seen) xs

/-- The function `extractEmails(text)`. -/
def extractEmails (s : List Char) : List (List Char) :=
  if s.isEmpty then []
  else dedupFS [] ((allMatches EMAIL_PATTERN s).filter emailAllowed)

/-- The domain of a matched e-mail: the lower-cased text after the last
`@`.  Used to state the spec's blocklist property. -/
def emailDomain (e : List Char) : List Char :=
  lowerChars (e.reverse.takeWhile (· ≠ '@')).reverse

/-- Modelled from the spec: the filter the spec describes — remove a match
exactly when its DOMAIN belongs to the blocklist (the code instead removes
any match merely containing a blocklisted string). -/
def extractEmailsSpec (s : List Char) : List (List Char) :=
  if s.isEmpty then []
  else dedupFS []
    ((allMatches EMAIL_PATTERN s).filter fun e => !(EMAIL_BLOCKLIST.contains (emailDomain e)))

/-- Modelled from the spec: the per-pattern result the spec describes for
`extractPhone` — the pattern's first match, accepted only when its
stripped-digit count is at least 7 (trimmed). -/
def firstMatchGood (p : List RAtom) (s : List Char) : Option (List Char) :=
  match firstMatch p s with
  | some m => if 7 ≤ ((jsTrim m).filter Char.isDigit).length then some (jsTrim m) else none
  | none => none

/-! ### String wrappers used by the page-level extractor -/

/-- JS `String.prototype.trim` on Lean strings. -/
def jsTrimStr (s : String) : String :=
  (jsTrim s.toList).asString

/-- JS `toLowerCase` on Lean strings. -/
def lowerStr (s : String) : String :=
  (lowerChars s.toList).asString

/-- The function `extractPhone` on strings. -/
def extractPhoneStr (s : String) : Option String :=
  (extractPhone s.toList).map List.asString

/-- The function `extractEmails` on strings. -/
def extractEmailsStr (s : String) : List String :=
  (extractEmails s.toList).map List.asString

/-- JS truthiness of a nullable string (`null`, `undefined` and `''` are
falsy). -/
def strTruthy : Option String → Bool
  | some s => !s.toList.isEmpty
  | none => false

/-- The idiom `el ? (text?.trim() || null) : null` used for name/address. -/
def optTrimOrNull : Option String → Option String
  | some t =>
    let tt := jsTrimStr t
    if tt.toList.isEmpty then none else some tt
  | none => none

/-! ### `extractPlaceDetails` (src/extractor.js lines 94-177) -/

/-- The `details` record built by `extractPlaceDetails` (and the
`ListingRecord` of the spec); fields in the order of the initializer. -/
structure Details where
  name : Option String
  address : Option String
  phone : Option String
  emails : List String
  hasWebsite : Bool
  placeId : Option String
  isActive : Bool
deriving DecidableEq

/-- The initial defaults of the `details` record. -/
def defaultDetails : Details :=
  { name := none, address := none, phone := none, emails := [],
    hasWebsite := false, placeId := none, isActive := true }

/-- The multilingual closed-business indicator list. -/
def closedIndicators : List String :=
  ["permanently closed", "cerrado permanentemente", "temporarily closed",
   "cerrado temporalmente", "business has closed", "no longer in business",
   "this place is closed"]

/-- The check `detectClosed`: case-insensitive substring scan of the page text for a
closed-business phrase. -/
def containsClosedIndicator (txt : String) : Bool :=
  closedIndicators.any fun ind => containsSub ind.toList (lowerChars txt.toList)

/-- One place page as `extractPlaceDetails` observes it: each DOM read is
a step that either yields a value or raises.  `placeIdStep` is the outcome
of the URL-to-placeId derivation (regex capture plus `decodeURIComponent`,
which can throw on malformed encoding); the element-read steps yield
`none` when the element is absent.  The inline
`waitForSelector('h1').catch(() => {})` has no field effect and is not a
step. -/
structure Page where
  placeIdStep : Except String (Option String)
  nameStep : Except String (Option String)
  pageTextStep : Except String String
  phoneElStep : Except String (Option String)
  panelTextStep : Except String String
  addressStep : Except String (Option String)
  websiteStep : Except String Bool

/-- The tail of `extractPlaceDetails` after the phone has been settled:
address, website, then e-mails from the page text read earlier.  An
exception in any step returns the record built so far. -/
def extractAfterPhone (p : Page) (pageText : String) (d : Details) : Details :=
  match p.addressStep with
  | .error _ => d
  | .ok addrText =>
    let d5 := { d with address := optTrimOrNull addrText }
    match p.websiteStep with
    | .error _ => d5
    | .ok hasW =>
      let d6 := { d5 with hasWebsite := hasW }
      { d6 with emails := extractEmailsStr pageText }

/-- The function `extractPlaceDetails(page)`: total; runs the steps in source order and
on any exception returns the fields extracted so far, the rest at their
defaults (the `catch` at lines 172-174).  The panel-text scan only runs
when no phone was found via the phone selectors. -/
def extractPlaceDetails (p : Page) : Details :=
  match p.placeIdStep with
  | .error _ => defaultDetails
  | .ok pid =>
    let d1 := { defaultDetails with placeId := pid }
    match p.nameStep with
    | .error _ => d1
    | .ok nameText =>
      let d2 := { d1 with name := optTrimOrNull nameText }
      match p.pageTextStep with
      | .error _ => d2
      | .ok pageText =>
        let d3 := { d2 with isActive := !containsClosedIndicator pageText }
        match p.phoneElStep with
        | .error _ => d3
        | .ok phoneText =>
          let phone1 := match phoneText with
            | some t => extractPhoneStr t
            | none => none
          match phone1 with
          | some ph => extractAfterPhone p pageText { d3 with phone := some ph }
          | none =>
            match p.panelTextStep with
            | .error _ => d3
            | .ok panelText =>
              extractAfterPhone p pageText { d3 with phone := extractPhoneStr panelText }

/-! ### `getPlaceDetails` and `searchEmailForBusiness`
(src/scraper.js lines 247-290 and 298-369) -/

/-- One run of `searchEmailForBusiness` as three fallible stages in
source order: `const page = await this.context.newPage()` (line 299,
BEFORE the `try`, so its exception propagates to the caller), the lookup
body inside the `try` (whose exception is caught and yields no e-mail),
and `await page.close()` in the `finally` (whose exception replaces the
result and propagates). -/
structure EnrichOutcome where
  newPageStep : Except String Unit
  lookup : Except String (Option String)
  closeStep : Except String Unit

/-- The lookup `searchEmailForBusiness`: the body is wrapped in
`try ... catch { return null }`, so a body failure yields no e-mail and
no error — but the page acquisition before the `try` and the close in the
`finally` are NOT protected, and their exceptions propagate to the
caller. -/
def searchEmailForBusiness (o : EnrichOutcome) : Except String (Option String) :=
  match o.newPageStep with
  | .error e => .error e
  | .ok _ =>
    let r : Option String :=
      match o.lookup with
      | .ok v => v
      | .error _ => none
    match o.closeStep with
    | .error e => .error e
    | .ok _ => .ok r

/-- The `finally { await page.close() }` of `getPlaceDetails`: a close
failure replaces whatever the `try`/`catch` produced and propagates. -/
def finallyClose (closeStep : Except String Unit) (r : Option Details) :
    Except String (Option Details) :=
  match closeStep with
  | .error e => .error e
  | .ok _ => .ok r

/-- The record actually delivered to the worker: some record only when
the call returned normally with a record (an exceptional outcome delivers
nothing — it rejects the worker promise instead). -/
def emittedRecord : Except String (Option Details) → Option Details
  | .ok (some d) => some d
  | _ => none

/-- The emission gate of `getPlaceDetails`:
`!details.hasWebsite && details.name && details.isActive`. -/
def gateQualifies (d : Details) : Bool :=
  !d.hasWebsite && strTruthy d.name && d.isActive

deriving instance DecidableEq for Except

/-- Result of one `getPlaceDetails` call: the outcome delivered to the
worker (a record, no record, or a propagated exception that rejects the
worker promise), the run-scoped dedup set (`checkedNames`, lower-cased
names — instance state, so it persists even when the call throws), and
whether the secondary e-mail lookup was invoked. -/
structure FetchResult where
  record : Except String (Option Details)
  checked : List String
  enrichInvoked : Bool
deriving DecidableEq

/-- The function `getPlaceDetails(placeUrl)`, staged in source order:
`const page = await this.context.newPage()` (line 248, BEFORE the `try`,
so its exception propagates and no `finally` runs); then, inside the
`try`, navigation-plus-extraction (`fetch` — `extractPlaceDetails` itself
never throws, so a `fetch` exception means the goto/wait failed), the
dedup check (before the no-website/active gate), the gate, and — only
inside the gate and only when no e-mail was found on the page — the call
to `searchEmailForBusiness`, whatever that call throws being caught by
this function's `catch` (which returns null); finally
`await page.close()`, whose exception replaces the result and
propagates. -/
def getPlaceDetails (checked : List String) (newPageStep : Except String Unit)
    (fetch : Except String Details) (enrich : EnrichOutcome)
    (closeStep : Except String Unit) : FetchResult :=
  match newPageStep with
  | .error e => ⟨.error e, checked, false⟩
  | .ok _ =>
    match fetch with
    | .error _ => ⟨finallyClose closeStep none, checked, false⟩
    | .ok d =>
      let nameLower := lowerStr (d.name.getD "")
      if strTruthy d.name && checked.contains nameLower then
        ⟨finallyClose closeStep none, checked, false⟩
      else
        let checked' := if strTruthy d.name then nameLower :: checked else checked
        if gateQualifies d then
          if d.emails.isEmpty then
            match searchEmailForBusiness enrich with
            | .error _ => ⟨finallyClose closeStep none, checked', true⟩
            | .ok (some e) =>
              ⟨finallyClose closeStep (some { d with emails := [e] }), checked', true⟩
            | .ok none => ⟨finallyClose closeStep (some d), checked', true⟩
          else ⟨finallyClose closeStep (some d), checked', false⟩
        else ⟨finallyClose closeStep none, checked', false⟩

/-! ### Cross-task dedup of `scrapeWithSubdivision`
(src/scraper.js lines 445-488) -/

/-- The key `result.placeId || result.name?.toLowerCase()`, with a
falsy key (`''`, absent) yielding none so the record is skipped by
`if (key && ...)`. -/
def dedupKey (d : Details) : Option String :=
  match d.placeId with
  | some p => if p.toList.isEmpty then nameKey d else some p
  | none => nameKey d
where
  /-- The name fallback of the dedup key. -/
  nameKey (d : Details) : Option String :=
    match d.name with
    | some n => if n.toList.isEmpty then none else some (lowerStr n)
    | none => none

/-- The `allResults` map fold: records of all tasks in order, inserted
keyed by `dedupKey` unless the key is already present (insertion order is
preserved, as for a JS `Map`). -/
def crossDedup : List Details → List (String × Details) → List (String × Details)
  | [], acc => acc
  | r :: rs, acc =>
    match dedupKey r with
    | some k =>
      if (acc.map Prod.fst).contains k then crossDedup rs acc
      else crossDedup rs (acc ++ [(k, r)])
    | none => crossDedup rs acc

/-- The collection `[...allResults.values()]` after folding all task results in order. -/
def sweepResults (rs : List Details) : List Details :=
  (crossDedup rs []).map Prod.snd

/-! ### The scroll loop of `scrollResults` (src/scraper.js lines 195-240) -/

/-- One run of the `while (scrollCount < maxScrolls && noChangeCount < 3)`
loop, returning the number of iterations executed.  `h i` is the container
height sampled at the (i+1)-th scroll attempt; `prev` and `nc` mirror
`previousHeight` and `noChangeCount`. -/
def scrollAux (h : Nat → Nat) : Nat → Nat → Nat → Nat → Nat
  | 0, _, _, _ => 0
  | fuel + 1, idx, prev, nc =>
    if 3 ≤ nc then 0
    else scrollAux h fuel (idx + 1) (h idx) (if h idx = prev then nc + 1 else 0) + 1

/-- Number of scroll attempts performed by `scrollResults` on a surface
with height samples `h` (initial `previousHeight = 0`,
`noChangeCount = 0`). -/
def scrollResults (h : Nat → Nat) (maxScrolls : Nat) : Nat :=
  scrollAux h maxScrolls 0 0 0

/-- The `previousHeight` seen by the (i+1)-th iteration. -/
def prevSample (h : Nat → Nat) : Nat → Nat
  | 0 => 0
  | i + 1 => h i

/-- The (i+1)-th iteration observed no height change. -/
def eqSample (h : Nat → Nat) (i : Nat) : Prop :=
  h i = prevSample h i

instance (h : Nat → Nat) (i : Nat) : Decidable (eqSample h i) := by
  unfold eqSample; infer_instance

/-! ### The worker pool of `processPlaces` (src/scraper.js lines 376-408) -/

/-- Shared pool state: the work queue, the pops performed so far (worker
index and url, in order), and the workers whose loop has exited. -/
structure PoolState where
  queue : List String
  popped : List (Nat × String)
  done : List Nat
deriving DecidableEq

/-- The count `Math.min(this.concurrency, queue.length)`: the number of workers. -/
def numWorkers (conc len : Nat) : Nat := min conc len

/-- The initial pool state for an input url list. -/
def initPool (refs : List String) : PoolState :=
  ⟨refs, [], []⟩

/-- One atomic step of worker `i` (the `queue.length` check and
`queue.shift()` run in one synchronous block, so they are one step): a
finished or out-of-range worker does nothing; on an empty queue the worker
exits; otherwise it pops the head — and additionally exits if the popped
url is falsy (`if (!url) break`). -/
def poolStep (w : Nat) (i : Nat) (s : PoolState) : PoolState :=
  if i < w ∧ ¬ i ∈ s.done then
    match s.queue with
    | [] => { s with done := i :: s.done }
    | u :: rest =>
      if u.toList.isEmpty then
        { queue := rest, popped := s.popped ++ [(i, u)], done := i :: s.done }
      else
        { queue := rest, popped := s.popped ++ [(i, u)], done := s.done }
  else s

/-- Run the pool under an arbitrary interleaving (schedule) of worker
steps. -/
def poolRun (w : Nat) : List Nat → PoolState → PoolState
  | [], s => s
  | i :: σ, s => poolRun w σ (poolStep w i s)

/-- Number of schedule entries that actually changed the state. -/
def poolChangedCount (w : Nat) : List Nat → PoolState → Nat
  | [], _ => 0
  | i :: σ, s =>
    (if poolStep w i s = s then 0 else 1) + poolChangedCount w σ (poolStep w i s)

/-- Invariant of every reachable pool state: the pops in order followed by
the remaining queue are exactly the input references (so no reference is
processed twice and order is preserved); finished workers are distinct and
in range; and a worker only ever finishes on an empty queue (for truthy
inputs), so the queue is empty as soon as anyone finished. -/
def PoolInv (refs : List String) (w : Nat) (s : PoolState) : Prop :=
  s.popped.map Prod.snd ++ s.queue = refs ∧
    s.done.Nodup ∧ (∀ i ∈ s.done, i < w) ∧
    (s.done ≠ [] → s.queue = [])

/-- The loop-variant of the pool: remaining queue items plus workers still
running. -/
def poolMeasure (w : Nat) (s : PoolState) : Nat :=
  s.queue.length + (w - s.done.length)

/-! ## Helper lemmas about the extractor -/

lemma tryPhonePatterns_digits :
    ∀ (ps : List (List RAtom)) (s p : List Char),
      tryPhonePatterns ps s = some p → 7 ≤ (p.filter Char.isDigit).length := by
  intro ps
  induction ps with
  | nil => intro s p h; simp [tryPhonePatterns] at h
  | cons q qs ih =>
    intro s p h
    unfold tryPhonePatterns at h
    cases hm : firstMatch q s with
    | none => rw [hm] at h; exact ih s p h
    | some m =>
      rw [hm] at h
      by_cases hd : 7 ≤ ((jsTrim m).filter Char.isDigit).length
      · simp only [hd, if_true, Option.some.injEq] at h
        exact h ▸ hd
      · simp only [hd, if_false] at h
        exact ih s p h

lemma tryPhonePatterns_eq_findSome (ps : List (List RAtom)) (s : List Char) :
    tryPhonePatterns ps s = ps.findSome? (fun p => firstMatchGood p s) := by
  induction ps with
  | nil => rfl
  | cons q qs ih =>
    unfold tryPhonePatterns
    rw [List.findSome?_cons]
    cases hm : firstMatch q s with
    | none => simp only [firstMatchGood, hm]; exact ih
    | some m =>
      by_cases hd : 7 ≤ ((jsTrim m).filter Char.isDigit).length
      · simp only [firstMatchGood, hm, hd, if_true]
      · simp only [firstMatchGood, hm, hd, if_false]; exact ih

lemma dedupFS_sublist : ∀ (l seen : List (List Char)),
    List.Sublist (dedupFS seen l) l := by
  intro l
  induction l with
  | nil => intro seen; exact List.Sublist.refl _
  | cons x xs ih =>
    intro seen
    unfold dedupFS
    by_cases hx : x ∈ seen
    · rw [if_pos hx]
      exact (ih seen).trans (List.sublist_cons_self x xs)
    · rw [if_neg hx]
      exact (ih (x :: seen)).cons₂ x

lemma dedupFS_mem : ∀ (l seen : List (List Char)) (e : List Char),
    e ∈ dedupFS seen l ↔ e ∈ l ∧ e ∉ seen := by
  intro l
  induction l with
  | nil => intro seen e; simp [dedupFS]
  | cons x xs ih =>
    intro seen e
    unfold dedupFS
    by_cases hx : x ∈ seen
    · rw [if_pos hx, ih]
      constructor
      · rintro ⟨he, hs⟩; exact ⟨List.mem_cons_of_mem x he, hs⟩
      · rintro ⟨he, hs⟩
        rcases List.mem_cons.mp he with rfl | hmem
        · exact absurd hx hs
        · exact ⟨hmem, hs⟩
    · rw [if_neg hx]
      constructor
      · intro h
        rcases List.mem_cons.mp h with rfl | hmem
        · exact ⟨List.mem_cons_self e xs, hx⟩
        · rcases (ih (x :: seen) e).mp hmem with ⟨he, hs⟩
          exact ⟨List.mem_cons_of_mem x he, fun hc => hs (List.mem_cons_of_mem x hc)⟩
      · rintro ⟨he, hs⟩
        rcases List.mem_cons.mp he with rfl | hmem
        · exact List.mem_cons_self e _
        · by_cases hex : e = x
          · exact hex ▸ List.mem_cons_self x _
          · refine List.mem_cons_of_mem x ((ih (x :: seen) e).mpr ⟨hmem, ?_⟩)
            intro hc
            exact (List.mem_cons.mp hc).elim hex hs

lemma dedupFS_nodup : ∀ (l seen : List (List Char)), (dedupFS seen l).Nodup := by
  intro l
  induction l with
  | nil => intro seen; simp [dedupFS]
  | cons x xs ih =>
    intro seen
    unfold dedupFS
    by_cases hx : x ∈ seen
    · simp only [hx, if_true]; exact ih seen
    · simp only [hx, if_false, List.nodup_cons]
      refine ⟨fun hc => ?_, ih (x :: seen)⟩
      exact ((dedupFS_mem xs (x :: seen) x).mp hc).2 (List.mem_cons_self x seen)

lemma isPrefixOf_self : ∀ (l : List Char), l.isPrefixOf l = true := by
  intro l
  induction l with
  | nil => rfl
  | cons c cs ih => simp [List.isPrefixOf, ih]

lemma containsSub_append (n : List Char) :
    ∀ (u : List Char), containsSub n (u ++ n) = true := by
  intro u
  induction u with
  | nil =>
    cases n with
    | nil => rfl
    | cons c cs => simp [containsSub, isPrefixOf_self]
  | cons c u' ih => simp [containsSub, ih]

lemma emailDomain_tail (e : List Char) :
    ∃ u, u ++ emailDomain e = lowerChars e := by
  refine ⟨lowerChars (e.reverse.dropWhile (· ≠ '@')).reverse, ?_⟩
  have he : (e.reverse.dropWhile (· ≠ '@')).reverse ++
      (e.reverse.takeWhile (· ≠ '@')).reverse = e := by
    rw [← List.reverse_append, List.takeWhile_append_dropWhile, List.reverse_reverse]
  unfold emailDomain lowerChars
  rw [← List.map_append, he]

lemma blocked_domain_filtered (e : List Char)
    (h : emailDomain e ∈ EMAIL_BLOCKLIST) : emailAllowed e = false := by
  rcases emailDomain_tail e with ⟨u, hu⟩
  by_contra hne
  have hall : emailAllowed e = true := by
    cases hv : emailAllowed e
    · exact absurd hv hne
    · rfl
  have := List.all_eq_true.mp hall _ h
  rw [← hu, containsSub_append] at this
  simp at this

lemma extractEmails_mem (s : List Char) (e : List Char) :
    e ∈ extractEmails s ↔
      e ∈ allMatches EMAIL_PATTERN s ∧ emailAllowed e = true := by
  cases s with
  | nil =>
    constructor
    · intro h; simp [extractEmails] at h
    · rintro ⟨hm, _⟩
      rw [show allMatches EMAIL_PATTERN [] = [] from rfl] at hm
      simp at hm
  | cons c cs =>
    rw [show extractEmails (c :: cs) =
      dedupFS [] ((allMatches EMAIL_PATTERN (c :: cs)).filter emailAllowed) from rfl]
    rw [dedupFS_mem, List.mem_filter]
    simp

/-! ## Claim C2 -/

/-- C2: for every input text, `extractPhone` returns either none or a
string whose stripped-digit count (characters left after removing all
non-digits) is at least 7. -/
theorem extractPhone_digit_count (s p : List Char)
    (h : extractPhone s = some p) : 7 ≤ (p.filter Char.isDigit).length := by
  unfold extractPhone at h
  by_cases hs : s.isEmpty
  · rw [if_pos hs] at h; exact absurd h (by simp)
  · rw [if_neg hs] at h
    exact tryPhonePatterns_digits PHONE_PATTERNS s p h

/-- Witness for C2 at a concrete input. -/
theorem extractPhone_digit_count_witness :
    extractPhone "call 555-123-4567 now".toList = some "555-123-4567".toList ∧
      7 ≤ (("555-123-4567".toList).filter Char.isDigit).length :=
  ⟨by decide, extractPhone_digit_count "call 555-123-4567 now".toList
    "555-123-4567".toList (by decide)⟩

/-! ## Claim C3 -/

/-- Counterexample to C3 as stated: on this text the first phone pattern
has the match `"5551234567"` with 10 stripped digits, yet `extractPhone`
returns none — because the code inspects only `matches[0]` of each
pattern (here `"12 34"`, 4 digits) and then falls through.  So it is not
true that none is returned only when no match of any pattern has at least
7 stripped digits. -/
theorem extractPhone_first_match_only_cex :
    extractPhone "12 34 x 5551234567".toList = none ∧
      "5551234567".toList ∈ allMatches PHONE_PATTERN_1 "12 34 x 5551234567".toList ∧
      7 ≤ (("5551234567".toList).filter Char.isDigit).length := by
  refine ⟨by decide, by decide, by decide⟩

/-- C3 amended: `extractPhone` tries the three patterns in priority order
and returns the trimmed FIRST match of the first pattern whose first
match has at least 7 stripped digits; it returns none exactly when every
pattern either has no match or has a first match with fewer than 7
stripped digits. -/
theorem extractPhone_pattern_order (s : List Char) :
    extractPhone s = PHONE_PATTERNS.findSome? (fun p => firstMatchGood p s) := by
  cases s with
  | nil => decide
  | cons c cs =>
    rw [show extractPhone (c :: cs) = tryPhonePatterns PHONE_PATTERNS (c :: cs) from rfl]
    exact tryPhonePatterns_eq_findSome PHONE_PATTERNS (c :: cs)

/-! ## Claim C4 -/

/-- Counterexample to C4 as stated: the e-mail `bob@example.company` has
domain `example.company`, which is NOT in the fixed blocklist, yet
`extractEmails` removes it — the code tests `lower.includes('example.com')`
on the whole match, a substring test, so it removes more than the
blocklisted-domain matches.  `extractEmailsSpec` is the filter the claim
describes (remove exactly the blocklisted-domain matches). -/
theorem extractEmails_domain_cex :
    extractEmails "bob@example.company".toList = [] ∧
      extractEmailsSpec "bob@example.company".toList = ["bob@example.company".toList] ∧
      ¬ emailDomain "bob@example.company".toList ∈ EMAIL_BLOCKLIST := by
  refine ⟨by decide, by decide, by decide⟩

/-- C4 amended: `extractEmails` returns the matches of the e-mail pattern
with every match CONTAINING a blocklisted string (case-insensitively)
removed — in particular no returned e-mail has a blocklisted domain —
without duplicates and in first-seen order (a sublist of the match
list). -/
theorem extractEmails_filtered_nodup_ordered (s : List Char) :
    (∀ e, e ∈ extractEmails s ↔
        e ∈ allMatches EMAIL_PATTERN s ∧ emailAllowed e = true) ∧
      (∀ e ∈ extractEmails s, emailDomain e ∉ EMAIL_BLOCKLIST) ∧
      (extractEmails s).Nodup ∧
      List.Sublist (extractEmails s) (allMatches EMAIL_PATTERN s) := by
  refine ⟨extractEmails_mem s, ?_, ?_, ?_⟩
  · intro e he hdom
    have hallow := ((extractEmails_mem s e).mp he).2
    rw [blocked_domain_filtered e hdom] at hallow
    exact absurd hallow (by simp)
  · cases s with
    | nil => rw [show extractEmails [] = [] from rfl]; exact List.nodup_nil
    | cons c cs =>
      rw [show extractEmails (c :: cs) =
        dedupFS [] ((allMatches EMAIL_PATTERN (c :: cs)).filter emailAllowed) from rfl]
      exact dedupFS_nodup _ []
  · cases s with
    | nil => rw [show extractEmails [] = [] from rfl]; exact List.nil_sublist _
    | cons c cs =>
      rw [show extractEmails (c :: cs) =
        dedupFS [] ((allMatches EMAIL_PATTERN (c :: cs)).filter emailAllowed) from rfl]
      exact (dedupFS_sublist _ []).trans (List.filter_sublist _)

/-! ## Helper lemmas about `getPlaceDetails` -/

lemma getPlaceDetails_run (checked : List String) (d : Details)
    (enrich : EnrichOutcome) (closeStep : Except String Unit) :
    getPlaceDetails checked (.ok ()) (.ok d) enrich closeStep =
      (if strTruthy d.name && checked.contains (lowerStr (d.name.getD "")) then
        (⟨finallyClose closeStep none, checked, false⟩ : FetchResult)
      else
        let checked' := if strTruthy d.name then
          lowerStr (d.name.getD "") :: checked else checked
        if gateQualifies d then
          if d.emails.isEmpty then
            match searchEmailForBusiness enrich with
            | .error _ => ⟨finallyClose closeStep none, checked', true⟩
            | .ok (some e) =>
              ⟨finallyClose closeStep (some { d with emails := [e] }), checked', true⟩
            | .ok none => ⟨finallyClose closeStep (some d), checked', true⟩
          else ⟨finallyClose closeStep (some d), checked', false⟩
        else ⟨finallyClose closeStep none, checked', false⟩) := rfl

lemma emittedRecord_close_none (closeStep : Except String Unit) :
    emittedRecord (finallyClose closeStep none) = none := by
  cases closeStep <;> rfl

lemma getPlaceDetails_emit (checked : List String) (d : Details)
    (lookup : Except String (Option String))
    (hfresh : strTruthy d.name = true →
      checked.contains (lowerStr (d.name.getD "")) = false) :
    (emittedRecord (getPlaceDetails checked (.ok ()) (.ok d)
        ⟨.ok (), lookup, .ok ()⟩ (.ok ())).record).isSome = gateQualifies d := by
  rw [getPlaceDetails_run]
  have hcond : (strTruthy d.name && checked.contains (lowerStr (d.name.getD ""))) = false := by
    cases h : strTruthy d.name with
    | false => rfl
    | true => rw [Bool.true_and]; exact hfresh h
  rw [hcond]
  simp only [Bool.false_eq_true, if_false]
  by_cases hg : gateQualifies d
  · rw [if_pos hg, hg]
    by_cases he : d.emails.isEmpty
    · rw [if_pos he]
      cases lookup with
      | ok v => cases v <;> rfl
      | error msg => rfl
    · rw [if_neg he]; rfl
  · rw [if_neg hg]
    cases hgv : gateQualifies d with
    | false => rfl
    | true => exact absurd hgv hg

lemma getPlaceDetails_dup (checked : List String) (d : Details)
    (enrich : EnrichOutcome) (closeStep : Except String Unit)
    (ht : strTruthy d.name = true)
    (hd : checked.contains (lowerStr (d.name.getD "")) = true) :
    getPlaceDetails checked (.ok ()) (.ok d) enrich closeStep =
      ⟨finallyClose closeStep none, checked, false⟩ := by
  rw [getPlaceDetails_run, ht, hd]
  rfl

lemma getPlaceDetails_checked_fresh (checked : List String) (d : Details)
    (enrich : EnrichOutcome) (closeStep : Except String Unit)
    (ht : strTruthy d.name = true)
    (hf : checked.contains (lowerStr (d.name.getD "")) = false) :
    (getPlaceDetails checked (.ok ()) (.ok d) enrich closeStep).checked =
      lowerStr (d.name.getD "") :: checked := by
  rw [getPlaceDetails_run, ht, hf]
  simp only [Bool.and_false, Bool.false_eq_true, if_false, if_true]
  by_cases hg : gateQualifies d
  · rw [if_pos hg]
    by_cases he : d.emails.isEmpty
    · rw [if_pos he]
      cases hse : searchEmailForBusiness enrich with
      | ok v => cases v <;> rfl
      | error msg => rfl
    · rw [if_neg he]
  · rw [if_neg hg]

lemma getPlaceDetails_record_close (checked : List String) (d : Details)
    (enrich : EnrichOutcome) (closeStep : Except String Unit) :
    ∃ x, (getPlaceDetails checked (.ok ()) (.ok d) enrich closeStep).record =
      finallyClose closeStep x := by
  rw [getPlaceDetails_run]
  repeat' split
  all_goals exact ⟨_, rfl⟩

/-! ## Claim C1 -/

/-- C1: for every listing processed by `getPlaceDetails` whose
(lower-cased) name is not already in the run-scoped dedup set — with the
page acquired and closed normally — a record is returned iff
`hasWebsite == false`, `isActive == true` and the name is present; in
particular a record with `hasWebsite == true` is never emitted, whatever
the outcome of the secondary e-mail lookup's body. -/
theorem getPlaceDetails_gate_iff (checked : List String) (d : Details)
    (lookup : Except String (Option String))
    (hfresh : strTruthy d.name = true →
      checked.contains (lowerStr (d.name.getD "")) = false) :
    ((emittedRecord (getPlaceDetails checked (.ok ()) (.ok d)
        ⟨.ok (), lookup, .ok ()⟩ (.ok ())).record).isSome = true) ↔
      (d.hasWebsite = false ∧ strTruthy d.name = true ∧ d.isActive = true) := by
  rw [getPlaceDetails_emit checked d lookup hfresh]
  unfold gateQualifies
  simp [Bool.and_eq_true, Bool.not_eq_true', and_assoc]

/-- Witness for C1 at a concrete input. -/
theorem getPlaceDetails_gate_iff_witness :
    (emittedRecord (getPlaceDetails []
        (.ok ()) (.ok { defaultDetails with name := some "Cafe Uno" })
        ⟨.ok (), .ok none, .ok ()⟩ (.ok ())).record).isSome = true :=
  (getPlaceDetails_gate_iff [] { defaultDetails with name := some "Cafe Uno" }
    (.ok none) (by decide)).mpr (by decide)

/-! ## Claim C5 -/

/-- C5: within one sweep, for two listings resolving to the same name
(case-insensitively), only the first is counted against the gate (its
lower-cased name is added to the dedup set); the repeated one hits the
dedup check before the no-website/active gate, returns none, leaves the
set unchanged and never triggers a second secondary e-mail lookup — so at
most one record is emitted for that name. -/
theorem dedup_one_sweep (checked : List String) (d1 d2 : Details)
    (e1 e2 : EnrichOutcome) (c1 c2 : Except String Unit)
    (h1 : strTruthy d1.name = true) (h2 : strTruthy d2.name = true)
    (hsame : lowerStr (d1.name.getD "") = lowerStr (d2.name.getD ""))
    (hfresh : checked.contains (lowerStr (d1.name.getD "")) = false) :
    emittedRecord (getPlaceDetails
        (getPlaceDetails checked (.ok ()) (.ok d1) e1 c1).checked
        (.ok ()) (.ok d2) e2 c2).record = none ∧
      (getPlaceDetails (getPlaceDetails checked (.ok ()) (.ok d1) e1 c1).checked
        (.ok ()) (.ok d2) e2 c2).enrichInvoked = false ∧
      (getPlaceDetails (getPlaceDetails checked (.ok ()) (.ok d1) e1 c1).checked
        (.ok ()) (.ok d2) e2 c2).checked
        = (getPlaceDetails checked (.ok ()) (.ok d1) e1 c1).checked ∧
      (getPlaceDetails checked (.ok ()) (.ok d1) e1 c1).checked =
        lowerStr (d1.name.getD "") :: checked ∧
      (c2 = .ok () →
        (getPlaceDetails (getPlaceDetails checked (.ok ()) (.ok d1) e1 c1).checked
          (.ok ()) (.ok d2) e2 c2).record = .ok none) ∧
      ([emittedRecord (getPlaceDetails checked (.ok ()) (.ok d1) e1 c1).record,
        emittedRecord (getPlaceDetails
          (getPlaceDetails checked (.ok ()) (.ok d1) e1 c1).checked
          (.ok ()) (.ok d2) e2 c2).record].filterMap id).length ≤ 1 := by
  have hck := getPlaceDetails_checked_fresh checked d1 e1 c1 h1 hfresh
  have hdup2 : ((getPlaceDetails checked (.ok ()) (.ok d1) e1 c1).checked).contains
      (lowerStr (d2.name.getD "")) = true := by
    rw [hck, ← hsame, List.contains_cons]
    simp
  have h2nd := getPlaceDetails_dup
    ((getPlaceDetails checked (.ok ()) (.ok d1) e1 c1).checked) d2 e2 c2 h2 hdup2
  refine ⟨by rw [h2nd]; exact emittedRecord_close_none c2, by rw [h2nd],
    by rw [h2nd], hck, ?_, ?_⟩
  · intro hc2
    rw [h2nd, hc2]
    rfl
  · rw [h2nd]
    have hred : emittedRecord (FetchResult.mk (finallyClose c2 none)
        ((getPlaceDetails checked (.ok ()) (.ok d1) e1 c1).checked) false).record
        = none := emittedRecord_close_none c2
    rw [hred]
    cases emittedRecord (getPlaceDetails checked (.ok ()) (.ok d1) e1 c1).record <;>
      simp

/-- Witness for C5 at a concrete input. -/
theorem dedup_one_sweep_witness :
    emittedRecord (getPlaceDetails
        (getPlaceDetails [] (.ok ()) (.ok { defaultDetails with name := some "Cafe A" })
          ⟨.ok (), .ok none, .ok ()⟩ (.ok ())).checked
        (.ok ()) (.ok { defaultDetails with name := some "CAFE A" })
        ⟨.ok (), .ok none, .ok ()⟩ (.ok ())).record = none :=
  (dedup_one_sweep [] { defaultDetails with name := some "Cafe A" }
    { defaultDetails with name := some "CAFE A" }
    ⟨.ok (), .ok none, .ok ()⟩ ⟨.ok (), .ok none, .ok ()⟩ (.ok ()) (.ok ())
    (by decide) (by decide) (by decide) (by decide)).1

/-! ## Claim C8 -/

/-- Counterexample to C8 as stated, at two concrete inputs.  First, the
page-text read throws after the name was read: the exception is raised
during extraction, yet the result of `getPlaceDetails` is NOT none — the
partially extracted record passes the gate and is emitted.  Second, the
page acquisition (`this.context.newPage()`, before the `try`) throws:
that exception is NOT caught — `getPlaceDetails` propagates it, rejecting
the worker promise, so one listing's failure CAN abort the batch. -/
theorem getPlaceDetails_extraction_error_cex :
    ((Page.mk (.ok (some "ChIJabc")) (.ok (some " Cafe Uno "))
        (.error "Execution context was destroyed") (.ok none) (.ok "")
        (.ok none) (.ok false)).pageTextStep
      = .error "Execution context was destroyed" ∧
      emittedRecord (getPlaceDetails [] (.ok ()) (.ok (extractPlaceDetails
          (Page.mk (.ok (some "ChIJabc")) (.ok (some " Cafe Uno "))
            (.error "Execution context was destroyed") (.ok none) (.ok "")
            (.ok none) (.ok false)))) ⟨.ok (), .ok none, .ok ()⟩
          (.ok ())).record ≠ none) ∧
      (getPlaceDetails [] (.error "Target page, context or browser has been closed")
          (.ok defaultDetails) ⟨.ok (), .ok none, .ok ()⟩ (.ok ())).record
        = .error "Target page, context or browser has been closed" := by
  refine ⟨⟨rfl, by decide⟩, rfl⟩

/-- C8 amended: only exceptions raised inside the `try` of
`getPlaceDetails` (navigation, gating, anything thrown out of the
secondary e-mail lookup — including that lookup's own page acquisition)
are caught and converted into no record with the dedup set preserved;
exceptions during extraction are caught inside `extractPlaceDetails` and
yield a partial record that proceeds through gating; but the page
acquisition before the `try` and the page close in the `finally` are
unprotected — their exceptions propagate out of `getPlaceDetails`, so
such a failure can abort the batch.  Inside `searchEmailForBusiness`,
only the lookup body is protected (a body failure behaves like no
e-mail); its page acquisition failure propagates to the caller. -/
theorem getPlaceDetails_never_propagates :
    (∀ (checked : List String) (e : String) (fetch : Except String Details)
        (enrich : EnrichOutcome) (closeStep : Except String Unit),
        getPlaceDetails checked (.error e) fetch enrich closeStep
          = ⟨.error e, checked, false⟩) ∧
      (∀ (checked : List String) (msg : String) (enrich : EnrichOutcome),
        getPlaceDetails checked (.ok ()) (.error msg) enrich (.ok ())
          = ⟨.ok none, checked, false⟩) ∧
      (∀ (checked : List String) (d : Details) (enrich : EnrichOutcome)
        (e : String),
        (getPlaceDetails checked (.ok ()) (.ok d) enrich (.error e)).record
          = .error e) ∧
      (∀ (e : String) (lookup : Except String (Option String))
        (c : Except String Unit),
        searchEmailForBusiness ⟨.error e, lookup, c⟩ = .error e) ∧
      (∀ msg : String, searchEmailForBusiness ⟨.ok (), .error msg, .ok ()⟩
        = .ok none) ∧
      (∀ (checked : List String) (d : Details) (enrich : EnrichOutcome),
        ∃ r, (getPlaceDetails checked (.ok ()) (.ok d) enrich (.ok ())).record
          = .ok r) := by
  refine ⟨fun _ _ _ _ _ => rfl, fun _ _ _ => rfl, ?_, fun _ _ _ => rfl,
    fun _ => rfl, ?_⟩
  · intro checked d enrich e
    obtain ⟨x, hx⟩ := getPlaceDetails_record_close checked d enrich (.error e)
    rw [hx]
    rfl
  · intro checked d enrich
    obtain ⟨x, hx⟩ := getPlaceDetails_record_close checked d enrich (.ok ())
    exact ⟨x, by rw [hx]; rfl⟩

/-! ## Claim C10 -/

/-- C10: `extractPlaceDetails` is total; when the page-text read fails
after the placeId and name steps succeeded, it returns exactly the fields
extracted before the failure (trimmed name, placeId) with every other
field at its initial default — and that partial record passes the
no-website/active gate of `getPlaceDetails` (hasWebsite defaulted to
false, isActive defaulted to true), so it is emitted. -/
theorem extractPlaceDetails_partial_fields (p : Page) (pid : Option String) (t msg : String)
    (hpid : p.placeIdStep = .ok pid) (hname : p.nameStep = .ok (some t))
    (ht : (jsTrimStr t).toList.isEmpty = false)
    (htext : p.pageTextStep = .error msg) :
    extractPlaceDetails p =
        { defaultDetails with name := some (jsTrimStr t), placeId := pid } ∧
      gateQualifies (extractPlaceDetails p) = true ∧
      ∀ lookup, (emittedRecord (getPlaceDetails [] (.ok ())
          (.ok (extractPlaceDetails p)) ⟨.ok (), lookup, .ok ()⟩
          (.ok ())).record).isSome = true := by
  have htne : ¬(jsTrimStr t).toList = [] := by
    intro hnil
    rw [hnil] at ht
    exact absurd ht (by simp)
  have htne2 : ¬(jsTrimStr t).data = [] := htne
  have hval : extractPlaceDetails p =
      { defaultDetails with name := some (jsTrimStr t), placeId := pid } := by
    unfold extractPlaceDetails
    rw [hpid, hname, htext]
    simp [optTrimOrNull, ht, htne2]
  have hgate : gateQualifies (extractPlaceDetails p) = true := by
    rw [hval]
    simp [gateQualifies, defaultDetails, strTruthy, ht, htne2]
  refine ⟨hval, hgate, fun lookup => ?_⟩
  rw [getPlaceDetails_emit [] (extractPlaceDetails p) lookup (fun _ => rfl), hgate]

/-- Witness for C10 at a concrete input. -/
theorem extractPlaceDetails_partial_fields_witness :
    extractPlaceDetails
        (Page.mk (.ok (some "ChIJw")) (.ok (some "Bar Dos")) (.error "timeout")
          (.ok none) (.ok "") (.ok none) (.ok false)) =
      { defaultDetails with name := some (jsTrimStr "Bar Dos"), placeId := some "ChIJw" } ∧
    (emittedRecord (getPlaceDetails [] (.ok ()) (.ok (extractPlaceDetails
        (Page.mk (.ok (some "ChIJw")) (.ok (some "Bar Dos")) (.error "timeout")
          (.ok none) (.ok "") (.ok none) (.ok false))))
        ⟨.ok (), .ok none, .ok ()⟩ (.ok ())).record).isSome = true :=
  ⟨(extractPlaceDetails_partial_fields _ (some "ChIJw") "Bar Dos" "timeout" rfl rfl
      (by decide) rfl).1,
    (extractPlaceDetails_partial_fields _ (some "ChIJw") "Bar Dos" "timeout" rfl rfl
      (by decide) rfl).2.2 (.ok none)⟩

/-! ## Helper lemmas about the cross-task dedup -/

lemma crossDedup_cons (r : Details) (rs : List Details)
    (acc : List (String × Details)) :
    crossDedup (r :: rs) acc =
      (match dedupKey r with
       | some k =>
         if (acc.map Prod.fst).contains k then crossDedup rs acc
         else crossDedup rs (acc ++ [(k, r)])
       | none => crossDedup rs acc) := rfl

lemma crossDedup_filter (p : String) :
    ∀ (rs : List Details) (acc : List (String × Details)),
      ((crossDedup rs acc).map Prod.snd).filter (fun d => dedupKey d == some p) =
        ((acc.map Prod.snd).filter (fun d => dedupKey d == some p)) ++
          (if (acc.map Prod.fst).contains p then []
           else (rs.find? (fun d => dedupKey d == some p)).toList) := by
  intro rs
  induction rs with
  | nil =>
    intro acc
    rw [show crossDedup [] acc = acc from rfl, List.find?_nil]
    cases hc : (acc.map Prod.fst).contains p <;> simp
  | cons r rs ih =>
    intro acc
    rw [crossDedup_cons]
    cases hk : dedupKey r with
    | none =>
      rw [ih acc, List.find?_cons_of_neg _ (by simp [hk])]
    | some k =>
      dsimp only
      by_cases hkp : k = p
      · subst hkp
        by_cases hmem : (acc.map Prod.fst).contains k = true
        · rw [if_pos hmem, ih acc, if_pos hmem, if_pos hmem]
        · rw [if_neg hmem, ih (acc ++ [(k, r)])]
          have hc2 : ((acc ++ [(k, r)]).map Prod.fst).contains k = true := by
            simp
          rw [if_pos hc2, if_neg hmem, List.find?_cons_of_pos _ (by simp [hk]),
            List.map_append, List.filter_append]
          simp [hk]
      · by_cases hmem : (acc.map Prod.fst).contains k = true
        · rw [if_pos hmem, ih acc, List.find?_cons_of_neg _ (by simp [hk, hkp])]
        · rw [if_neg hmem, ih (acc ++ [(k, r)])]
          have hcont : ((acc ++ [(k, r)]).map Prod.fst).contains p =
              (acc.map Prod.fst).contains p := by
            simp [Ne.symm hkp]
          rw [hcont, List.map_append, List.filter_append,
            List.find?_cons_of_neg _ (by simp [hk, hkp])]
          simp [hk, hkp]

/-! ## Claim C6 -/

/-- C6: in multi-region sweep mode, when some task produced a qualifying
record with (truthy) placeId `p`, the sweep's final collection contains
exactly one record keyed by `p` — the first record, in task-fold order,
whose dedup key (placeId, else lower-cased name) is `p`. -/
theorem sweep_cross_dedup (rs : List Details) (r : Details) (p : String)
    (hmem : r ∈ rs) (hpid : r.placeId = some p)
    (hp : p.toList.isEmpty = false) :
    ((sweepResults rs).filter (fun d => dedupKey d == some p)) =
        (rs.find? (fun d => dedupKey d == some p)).toList ∧
      ((sweepResults rs).filter (fun d => dedupKey d == some p)).length = 1 := by
  have hpne : ¬p.toList = [] := by
    intro h
    rw [h] at hp
    exact absurd hp (by simp)
  have hpne2 : ¬p.data = [] := hpne
  have hkey : dedupKey r = some p := by
    unfold dedupKey
    rw [hpid]
    simp [hpne2]
  have hfound : (rs.find? (fun d => dedupKey d == some p)).isSome := by
    rw [List.find?_isSome]
    exact ⟨r, hmem, by simp [hkey]⟩
  have hmain := crossDedup_filter p rs []
  rw [show ((([] : List (String × Details)).map Prod.fst).contains p) = false
    from rfl] at hmain
  simp only [List.map_nil, List.filter_nil, List.nil_append, Bool.false_eq_true,
    if_false] at hmain
  unfold sweepResults
  refine ⟨hmain, ?_⟩
  rw [hmain]
  cases hf : rs.find? (fun d => dedupKey d == some p) with
  | some x => rfl
  | none => rw [hf] at hfound; exact absurd hfound (by simp)

/-- Witness for C6 at a concrete input: two tasks' records share placeId
`P1`; the final collection keeps exactly the first. -/
theorem sweep_cross_dedup_witness :
    ((sweepResults
        [{ defaultDetails with name := some "A", placeId := some "P1" },
         { defaultDetails with name := some "B", placeId := some "P1" }]).filter
      (fun d => dedupKey d == some "P1")).length = 1 :=
  (sweep_cross_dedup
    [{ defaultDetails with name := some "A", placeId := some "P1" },
     { defaultDetails with name := some "B", placeId := some "P1" }]
    { defaultDetails with name := some "A", placeId := some "P1" } "P1"
    (by decide) (by decide) (by decide)).2

/-! ## Helper lemmas about the scroll loop -/

lemma scrollAux_zero (h : Nat → Nat) (idx prev nc : Nat) :
    scrollAux h 0 idx prev nc = 0 := rfl

lemma scrollAux_succ (h : Nat → Nat) (n idx prev nc : Nat) :
    scrollAux h (n + 1) idx prev nc =
      if 3 ≤ nc then 0
      else scrollAux h n (idx + 1) (h idx) (if h idx = prev then nc + 1 else 0) + 1 :=
  rfl

lemma scrollAux_le_fuel (h : Nat → Nat) :
    ∀ (fuel idx prev nc : Nat), scrollAux h fuel idx prev nc ≤ fuel := by
  intro fuel
  induction fuel with
  | zero => intro idx prev nc; rw [scrollAux_zero]
  | succ n ihn =>
    intro idx prev nc
    rw [scrollAux_succ]
    by_cases hnc : 3 ≤ nc
    · rw [if_pos hnc]; exact Nat.zero_le _
    · rw [if_neg hnc]; exact Nat.succ_le_succ (ihn _ _ _)

lemma scrollAux_const (h : Nat → Nat) (c : Nat) :
    ∀ (fuel idx nc : Nat), (∀ i, idx ≤ i → h i = c) →
      scrollAux h fuel idx c nc ≤ 3 - nc := by
  intro fuel
  induction fuel with
  | zero => intro idx nc _; rw [scrollAux_zero]; exact Nat.zero_le _
  | succ n ihn =>
    intro idx nc hc
    rw [scrollAux_succ]
    by_cases hnc : 3 ≤ nc
    · rw [if_pos hnc]; exact Nat.zero_le _
    · rw [if_neg hnc]
      have hcur : h idx = c := hc idx (Nat.le_refl idx)
      rw [hcur, if_pos rfl]
      have := ihn (idx + 1) (nc + 1) (fun i hi => hc i (by omega))
      omega

lemma scrollAux_const_any (h : Nat → Nat) (c : Nat) (fuel idx prev nc : Nat)
    (hc : ∀ i, idx ≤ i → h i = c) :
    scrollAux h fuel idx prev nc ≤ 4 := by
  cases fuel with
  | zero => rw [scrollAux_zero]; exact Nat.zero_le _
  | succ n =>
    rw [scrollAux_succ]
    by_cases hnc : 3 ≤ nc
    · rw [if_pos hnc]; exact Nat.zero_le _
    · rw [if_neg hnc]
      have hcur : h idx = c := hc idx (Nat.le_refl idx)
      rw [hcur]
      have := scrollAux_const h c n (idx + 1) (if c = prev then nc + 1 else 0)
        (fun i hi => hc i (by omega))
      omega

lemma scrollAux_tail_const (h : Nat → Nat) (c m : Nat)
    (hc : ∀ i, m ≤ i → h i = c) :
    ∀ (fuel idx prev nc : Nat), scrollAux h fuel idx prev nc ≤ (m - idx) + 4 := by
  intro fuel
  induction fuel with
  | zero => intro idx prev nc; rw [scrollAux_zero]; exact Nat.zero_le _
  | succ n ihn =>
    intro idx prev nc
    by_cases hmi : m ≤ idx
    · exact (scrollAux_const_any h c (n + 1) idx prev nc
        (fun i hi2 => hc i (le_trans hmi hi2))).trans (by omega)
    · rw [scrollAux_succ]
      by_cases hnc : 3 ≤ nc
      · rw [if_pos hnc]; exact Nat.zero_le _
      · rw [if_neg hnc]
        have := ihn (idx + 1) (h idx) (if h idx = prev then nc + 1 else 0)
        omega

lemma scrollAux_run_of_three (h : Nat → Nat) (j : Nat) :
    ∀ (r fuel nc : Nat), 3 ≤ nc + r → (∀ t, t < r → eqSample h (j + t)) →
      scrollAux h fuel j (prevSample h j) nc ≤ r := by
  intro r
  induction r generalizing j with
  | zero =>
    intro fuel nc h3 _
    cases fuel with
    | zero => rw [scrollAux_zero]
    | succ n => rw [scrollAux_succ, if_pos (by omega)]
  | succ r ihr =>
    intro fuel nc h3 hall
    cases fuel with
    | zero => rw [scrollAux_zero]; exact Nat.zero_le _
    | succ n =>
      rw [scrollAux_succ]
      by_cases hnc : 3 ≤ nc
      · rw [if_pos hnc]; exact Nat.zero_le _
      · rw [if_neg hnc]
        have heq : h j = prevSample h j := by
          have := hall 0 (by omega)
          simpa [eqSample] using this
        rw [if_pos heq]
        have hrec : scrollAux h n (j + 1) (prevSample h (j + 1)) (nc + 1) ≤ r := by
          refine ihr (j + 1) n (nc + 1) (by omega) ?_
          intro t ht
          have := hall (t + 1) (by omega)
          rwa [show j + (t + 1) = (j + 1) + t by omega] at this
        have hshow : scrollAux h n (j + 1) (h j) (nc + 1) =
            scrollAux h n (j + 1) (prevSample h (j + 1)) (nc + 1) := rfl
        omega

lemma scrollAux_before_three (h : Nat → Nat) (j : Nat)
    (e0 : eqSample h j) (e1 : eqSample h (j + 1)) (e2 : eqSample h (j + 2)) :
    ∀ (fuel idx nc : Nat), idx ≤ j →
      scrollAux h fuel idx (prevSample h idx) nc ≤ (j - idx) + 3 := by
  intro fuel
  induction fuel with
  | zero => intro idx nc _; rw [scrollAux_zero]; exact Nat.zero_le _
  | succ n ihn =>
    intro idx nc hij
    by_cases hj : idx = j
    · subst hj
      have := scrollAux_run_of_three h idx 3 (n + 1) nc (by omega) ?_
      · omega
      · intro t ht
        interval_cases t
        · simpa using e0
        · exact e1
        · exact e2
    · have hlt : idx < j := lt_of_le_of_ne hij hj
      rw [scrollAux_succ]
      by_cases hnc : 3 ≤ nc
      · rw [if_pos hnc]; exact Nat.zero_le _
      · rw [if_neg hnc]
        have hrec := ihn (idx + 1) (if h idx = prevSample h idx then nc + 1 else 0)
          (by omega)
        have hshow : scrollAux h n (idx + 1) (h idx)
              (if h idx = prevSample h idx then nc + 1 else 0) =
            scrollAux h n (idx + 1) (prevSample h (idx + 1))
              (if h idx = prevSample h idx then nc + 1 else 0) := rfl
        omega

lemma scrollAux_stop_three (h : Nat → Nat) :
    ∀ (fuel idx nc : Nat), nc ≤ 3 → nc ≤ idx →
      (∀ t, t < nc → eqSample h (idx - 1 - t)) →
      scrollAux h fuel idx (prevSample h idx) nc < fuel →
      3 ≤ nc + scrollAux h fuel idx (prevSample h idx) nc ∧
        ∀ t, t < 3 →
          eqSample h (idx + scrollAux h fuel idx (prevSample h idx) nc - 1 - t) := by
  intro fuel
  induction fuel with
  | zero =>
    intro idx nc _ _ _ hrun
    rw [scrollAux_zero] at hrun
    omega
  | succ n ihn =>
    intro idx nc hnc3 hnci hprev hrun
    by_cases hnc : 3 ≤ nc
    · have hval : scrollAux h (n + 1) idx (prevSample h idx) nc = 0 := by
        rw [scrollAux_succ, if_pos hnc]
      rw [hval]
      refine ⟨by omega, fun t ht => ?_⟩
      have : t < nc := by omega
      have := hprev t this
      rwa [show idx + 0 - 1 - t = idx - 1 - t by omega]
    · by_cases heq : h idx = prevSample h idx
      · have hval : scrollAux h (n + 1) idx (prevSample h idx) nc =
            scrollAux h n (idx + 1) (prevSample h (idx + 1)) (nc + 1) + 1 := by
          rw [scrollAux_succ, if_neg hnc, if_pos heq]
          rfl
        rw [hval] at hrun ⊢
        have hnext : ∀ t, t < nc + 1 → eqSample h (idx + 1 - 1 - t) := by
          intro t ht
          cases t with
          | zero => simpa using heq
          | succ s =>
            have := hprev s (by omega)
            rwa [show idx + 1 - 1 - (s + 1) = idx - 1 - s by omega]
        have hih := ihn (idx + 1) (nc + 1) (by omega) (by omega) hnext (by omega)
        refine ⟨by omega, fun t ht => ?_⟩
        have := hih.2 t ht
        rwa [show idx + 1 + scrollAux h n (idx + 1) (prevSample h (idx + 1)) (nc + 1)
            - 1 - t
          = idx + (scrollAux h n (idx + 1) (prevSample h (idx + 1)) (nc + 1) + 1)
            - 1 - t by omega] at this
      · have hval : scrollAux h (n + 1) idx (prevSample h idx) nc =
            scrollAux h n (idx + 1) (prevSample h (idx + 1)) 0 + 1 := by
          rw [scrollAux_succ, if_neg hnc, if_neg heq]
          rfl
        rw [hval] at hrun ⊢
        have hih := ihn (idx + 1) 0 (by omega) (by omega)
          (fun t ht => absurd ht (by omega)) (by omega)
        refine ⟨by omega, fun t ht => ?_⟩
        have := hih.2 t ht
        rwa [show idx + 1 + scrollAux h n (idx + 1) (prevSample h (idx + 1)) 0 - 1 - t
          = idx + (scrollAux h n (idx + 1) (prevSample h (idx + 1)) 0 + 1) - 1 - t
          by omega] at this

/-! ## Claim C7 -/

/-- C7: the scroll loop always terminates (it performs at most
`maxScrolls` attempts); when the surface's height stops growing after `k`
scrolls (samples from the k-th on are all equal to the k-th), it stops
within `k + 3` attempts; it never runs past the first three consecutive
no-change samples; and whenever it stops below the ceiling, its last
three samples were no-change samples — so it stops exactly at convergence
or at the ceiling, and never loops indefinitely. -/
theorem scrollResults_convergence (h : Nat → Nat) (maxScrolls k : Nat)
    (hk : 1 ≤ k) (hconst : ∀ i, k - 1 ≤ i → h i = h (k - 1)) :
    scrollResults h maxScrolls ≤ maxScrolls ∧
      scrollResults h maxScrolls ≤ k + 3 ∧
      (∀ j, eqSample h j → eqSample h (j + 1) → eqSample h (j + 2) →
        scrollResults h maxScrolls ≤ j + 3) ∧
      (scrollResults h maxScrolls < maxScrolls →
        3 ≤ scrollResults h maxScrolls ∧
          ∀ t, t < 3 → eqSample h (scrollResults h maxScrolls - 1 - t)) := by
  have hrfl : scrollResults h maxScrolls
      = scrollAux h maxScrolls 0 (prevSample h 0) 0 := rfl
  refine ⟨scrollAux_le_fuel h maxScrolls 0 0 0, ?_, ?_, ?_⟩
  · have := scrollAux_tail_const h (h (k - 1)) (k - 1) hconst maxScrolls 0 0 0
    have h2 : scrollResults h maxScrolls = scrollAux h maxScrolls 0 0 0 := rfl
    omega
  · intro j e0 e1 e2
    have := scrollAux_before_three h j e0 e1 e2 maxScrolls 0 0 (Nat.zero_le j)
    rw [hrfl]
    omega
  · intro hlt
    rw [hrfl] at hlt ⊢
    obtain ⟨h1, h2⟩ := scrollAux_stop_three h maxScrolls 0 0 (by omega)
      (Nat.le_refl 0) (fun t ht => absurd ht (by omega)) hlt
    refine ⟨by omega, fun t ht => ?_⟩
    have := h2 t ht
    rwa [show 0 + scrollAux h maxScrolls 0 (prevSample h 0) 0 - 1 - t
      = scrollAux h maxScrolls 0 (prevSample h 0) 0 - 1 - t by omega] at this

/-- Witness for C7 at a concrete surface: heights 1, 2, 3, 3, 3, ...
stop growing after the third scroll; the loop stops within 6 attempts. -/
theorem scrollResults_convergence_witness :
    scrollResults (fun i => min (i + 1) 3) 50000 ≤ 3 + 3 :=
  (scrollResults_convergence (fun i => min (i + 1) 3) 50000 3 (by omega)
    (fun i hi => by simp [Nat.min_def]; omega)).2.1

/-! ## Helper lemmas about the worker pool -/

lemma nodup_bounded_length_le (l : List Nat) (w : Nat)
    (hn : l.Nodup) (hb : ∀ x ∈ l, x < w) : l.length ≤ w := by
  have hsub : l ⊆ List.range w := fun x hx => List.mem_range.mpr (hb x hx)
  have := (hn.subperm hsub).length_le
  simpa using this

lemma poolStep_inv (refs : List String) (w i : Nat) (s : PoolState)
    (htruthy : ∀ u ∈ refs, u.toList.isEmpty = false)
    (hinv : PoolInv refs w s) : PoolInv refs w (poolStep w i s) := by
  obtain ⟨hq, hnd, hbd, hdq⟩ := hinv
  unfold poolStep
  by_cases hact : i < w ∧ ¬ i ∈ s.done
  · rw [if_pos hact]
    cases hqs : s.queue with
    | nil =>
      dsimp only
      rw [hqs] at hq
      refine ⟨hq, List.Nodup.cons hact.2 hnd, ?_, fun _ => rfl⟩
      intro j hj
      rcases List.mem_cons.mp hj with rfl | hj2
      · exact hact.1
      · exact hbd j hj2
    | cons u rest =>
      have humem : u ∈ refs := by
        rw [← hq, hqs]
        exact List.mem_append_right _ (List.mem_cons_self u rest)
      have hu : u.toList.isEmpty = false := htruthy u humem
      dsimp only
      rw [hu]
      simp only [Bool.false_eq_true, if_false]
      have hdone : s.done = [] := by
        by_contra hne
        rw [hdq hne] at hqs
        exact absurd hqs (by simp)
      refine ⟨?_, hnd, hbd, ?_⟩
      · rw [List.map_append, List.append_assoc, ← hq, hqs]
        rfl
      · intro hne
        rw [hdone] at hne
        exact absurd rfl hne
  · rw [if_neg hact]
    exact ⟨hq, hnd, hbd, hdq⟩

lemma poolRun_inv (refs : List String) (w : Nat)
    (htruthy : ∀ u ∈ refs, u.toList.isEmpty = false) :
    ∀ (σ : List Nat) (s : PoolState), PoolInv refs w s →
      PoolInv refs w (poolRun w σ s) := by
  intro σ
  induction σ with
  | nil => intro s hinv; exact hinv
  | cons i σ ih =>
    intro s hinv
    exact ih (poolStep w i s) (poolStep_inv refs w i s htruthy hinv)

lemma initPool_inv (refs : List String) (w : Nat) :
    PoolInv refs w (initPool refs) := by
  refine ⟨by simp [initPool], List.nodup_nil, by simp [initPool], ?_⟩
  intro hne
  exact absurd rfl hne

lemma poolStep_measure (refs : List String) (w i : Nat) (s : PoolState)
    (htruthy : ∀ u ∈ refs, u.toList.isEmpty = false)
    (hinv : PoolInv refs w s) (hch : poolStep w i s ≠ s) :
    poolMeasure w (poolStep w i s) + 1 ≤ poolMeasure w s := by
  obtain ⟨hq, hnd, hbd, hdq⟩ := hinv
  by_cases hact : i < w ∧ ¬ i ∈ s.done
  · unfold poolStep
    rw [if_pos hact]
    cases hqs : s.queue with
    | nil =>
      have hlen : (i :: s.done).length ≤ w := by
        refine nodup_bounded_length_le _ w (List.Nodup.cons hact.2 hnd) ?_
        intro j hj
        rcases List.mem_cons.mp hj with rfl | hj2
        · exact hact.1
        · exact hbd j hj2
      rw [List.length_cons] at hlen
      dsimp only
      unfold poolMeasure
      rw [hqs]
      simp only [List.length_cons, List.length_nil]
      omega
    | cons u rest =>
      have humem : u ∈ refs := by
        rw [← hq, hqs]
        exact List.mem_append_right _ (List.mem_cons_self u rest)
      have hu : u.toList.isEmpty = false := htruthy u humem
      dsimp only
      rw [hu]
      simp only [Bool.false_eq_true, if_false]
      unfold poolMeasure
      rw [hqs]
      simp only [List.length_cons]
      omega
  · exfalso
    apply hch
    unfold poolStep
    rw [if_neg hact]

lemma poolRun_changed_le (refs : List String) (w : Nat)
    (htruthy : ∀ u ∈ refs, u.toList.isEmpty = false) :
    ∀ (σ : List Nat) (s : PoolState), PoolInv refs w s →
      poolChangedCount w σ s + poolMeasure w (poolRun w σ s) ≤ poolMeasure w s := by
  intro σ
  induction σ with
  | nil =>
    intro s hinv
    rw [show poolChangedCount w [] s = 0 from rfl,
      show poolRun w [] s = s from rfl]
    omega
  | cons i σ ih =>
    intro s hinv
    rw [show poolChangedCount w (i :: σ) s =
        (if poolStep w i s = s then 0 else 1) + poolChangedCount w σ (poolStep w i s)
      from rfl,
      show poolRun w (i :: σ) s = poolRun w σ (poolStep w i s) from rfl]
    have hih := ih (poolStep w i s) (poolStep_inv refs w i s htruthy hinv)
    by_cases hch : poolStep w i s = s
    · rw [if_pos hch]
      rw [hch] at hih ⊢
      omega
    · rw [if_neg hch]
      have := poolStep_measure refs w i s htruthy hinv hch
      omega

/-! ## Claim C9 -/

/-- C9: `processPlaces` creates exactly `min(concurrency, queueLength)`
workers; under EVERY interleaving of worker steps, the pops in order
followed by the remaining queue equal the input list (each reference is
attempted at most once, never twice); when every worker has finished (and
there was at least one worker) every reference has been attempted exactly
once; the number of state-changing steps of any schedule is bounded by
`queueLength + workers`, so no worker loops forever; and a worker
scheduled on an empty queue terminates immediately. -/
theorem processPlaces_pool (refs : List String) (conc : Nat) (σ : List Nat)
    (htruthy : ∀ u ∈ refs, u.toList.isEmpty = false) :
    numWorkers conc refs.length = min conc refs.length ∧
      (poolRun (numWorkers conc refs.length) σ (initPool refs)).popped.map Prod.snd ++
          (poolRun (numWorkers conc refs.length) σ (initPool refs)).queue = refs ∧
      ((∀ i, i < numWorkers conc refs.length →
          i ∈ (poolRun (numWorkers conc refs.length) σ (initPool refs)).done) →
        1 ≤ numWorkers conc refs.length →
        (poolRun (numWorkers conc refs.length) σ (initPool refs)).popped.map Prod.snd
          = refs) ∧
      poolChangedCount (numWorkers conc refs.length) σ (initPool refs) ≤
        refs.length + numWorkers conc refs.length ∧
      (∀ (s : PoolState) (i : Nat), i < numWorkers conc refs.length →
        ¬ i ∈ s.done → s.queue = [] →
        (poolStep (numWorkers conc refs.length) i s).done = i :: s.done) := by
  have hinv := poolRun_inv refs (numWorkers conc refs.length) htruthy σ
    (initPool refs) (initPool_inv refs (numWorkers conc refs.length))
  obtain ⟨hq, hnd, hbd, hdq⟩ := hinv
  refine ⟨rfl, hq, ?_, ?_, ?_⟩
  · intro hall hw
    have hdone : (poolRun (numWorkers conc refs.length) σ (initPool refs)).done ≠ [] := by
      intro hnil
      have := hall 0 hw
      rw [hnil] at this
      exact absurd this (by simp)
    have hempty := hdq hdone
    rw [hempty, List.append_nil] at hq
    exact hq
  · have hcle := poolRun_changed_le refs (numWorkers conc refs.length) htruthy σ
      (initPool refs) (initPool_inv refs (numWorkers conc refs.length))
    have hm : poolMeasure (numWorkers conc refs.length) (initPool refs) =
        refs.length + numWorkers conc refs.length := by
      unfold poolMeasure initPool
      simp
    rw [hm] at hcle
    omega
  · intro s i hi hd hqs
    unfold poolStep
    rw [if_pos ⟨hi, hd⟩, hqs]

/-- Witness for C9 at a concrete input: three references, concurrency 2,
one specific interleaving. -/
theorem processPlaces_pool_witness :
    (poolRun (numWorkers 2 ["a", "b", "c"].length) [0, 1, 0, 1, 0, 0, 1]
          (initPool ["a", "b", "c"])).popped.map Prod.snd ++
        (poolRun (numWorkers 2 ["a", "b", "c"].length) [0, 1, 0, 1, 0, 0, 1]
          (initPool ["a", "b", "c"])).queue = ["a", "b", "c"] :=
  (processPlaces_pool ["a", "b", "c"] 2 [0, 1, 0, 1, 0, 0, 1] (by decide)).2.1

end InfoGetter
